import Mathlib

/-!
Verification development for the Auto-BOM configuration resolution engine.

The TypeScript sources are shallowly embedded below.  JavaScript strings are
modelled as Lean `String` (ASCII case conversion; all concrete inputs in this
file are ASCII, where JS `toUpperCase`/`toLowerCase` agree with Lean's).
JS `Set<string>` values are modelled as `List String` with membership lookup:
only membership, insertion and deletion are ever observed by the embedded
code, and those agree.  JS numbers are modelled as `ℚ` (the scores are small
dyadic/decimal constants and ratios of small naturals, where binary64
arithmetic is exact or its rounding is irrelevant to the comparisons made).
-/

namespace AutoBOM

/-- Whitespace characters recognised by the regex class `\s` that can occur
in the embedded ASCII inputs. -/
def isWSChar (c : Char) : Bool :=
  c = ' ' || c = '\t' || c = '\n' || c = '\r'

/-- JS `str.toUpperCase()` (ASCII; all concrete strings here are ASCII). -/
def upStr (s : String) : String := String.mk (s.toList.map Char.toUpper)

/-- JS `str.toLowerCase()` (ASCII). -/
def downStr (s : String) : String := String.mk (s.toList.map Char.toLower)

/-- Splits a character list at every character satisfying `sep`, keeping the
(possibly empty) chunks between separators.  Together with a nonempty filter
this models JS `str.split(/[...]+/).filter(s => s.length > 0)`. -/
def splitChunks (sep : Char → Bool) : List Char → List Char → List (List Char)
  | [], cur => [cur.reverse]
  | c :: cs, cur =>
      if sep c then cur.reverse :: splitChunks sep cs []
      else splitChunks sep cs (c :: cur)

/-- Splits a string on the separator class and drops empty chunks, the common
JS idiom `s.split(/[sep]+/).filter(t => t.length > 0)`. -/
def splitDrop (sep : Char → Bool) (s : String) : List String :=
  ((splitChunks sep s.toList []).map String.mk).filter (fun t => t.length > 0)

/-- Checks whether `need` occurs as a contiguous sublist of the character
list, modelling JS `String.prototype.includes`. -/
def hasSubAux (need : List Char) : List Char → Bool
  | [] => need.isEmpty
  | c :: rest => need.isPrefixOf (c :: rest) || hasSubAux need rest

/-- JS `hay.includes(need)` for strings. -/
def containsStr (hay need : String) : Bool :=
  hasSubAux need.toList hay.toList

/-- Membership test on a modelled JS `Set<string>` (JS `set.has(x)`). -/
def hasId (l : List String) (x : String) : Bool :=
  l.any (fun y => y == x)

/-- JS `set.add(x)` on the modelled set: a no-op when already present. -/
def addId (l : List String) (x : String) : List String :=
  if hasId l x then l else l ++ [x]

/-- JS `str.trim()` for the ASCII whitespace occurring here. -/
def trimWS (s : String) : String :=
  String.mk (((s.toList.dropWhile (fun c => isWSChar c)).reverse.dropWhile
    (fun c => isWSChar c)).reverse)

/-- From MOProvision.tsx: `normalize` uppercases, strips every character
outside `[A-Z0-9]`, then strips leading zeros. -/
def normalize (s : String) : String :=
  String.mk ((((upStr s).toList.filter
    (fun c => ('A' ≤ c && c ≤ 'Z') || ('0' ≤ c && c ≤ '9'))).dropWhile
    (fun c => c = '0')))

/-- Catalog part, from the repository's `BOMPart` shape (BOMTable import). -/
structure BOMPart where
  id : String
  Part_Number : String
  Name : String
  Remarks : String
  Std_Remarks : String
  F_Code : Int
  Ref_des : String
  Select_pref : Int
  Qty : Int
  deriving DecidableEq, Repr

/-- Structured logic condition, from the repository's `RuleLogic` shape. -/
structure RuleLogic where
  includes : List String
  excludes : List String
  orGroups : List (List String)
  raw : String
  deriving DecidableEq, Repr

/-- Configuration rule, from the repository's `ConfigRule` shape. -/
structure ConfigRule where
  id : String
  targetPartId : String
  logic : RuleLogic
  isActive : Bool
  deriving DecidableEq, Repr

/-- Historical knowledge entry (category, selection, partNumber). -/
structure KnowledgeEntry where
  category : String
  selection : String
  partNumber : String
  deriving DecidableEq, Repr

/-- One externally extracted order option (category, selection, quantity). -/
structure MOOption where
  category : String
  selection : String
  quantity : String
  deriving DecidableEq, Repr

/-- From MOProvision.tsx lines 190-218: the scoring-path logic evaluator
`evaluateLogic(rule, moContextTokens, moContextRaw)`. -/
def evaluateLogic (rule : ConfigRule) (moContextTokens : List String)
    (moContextRaw : String) : Bool :=
  let includes := rule.logic.includes
  let excludes := rule.logic.excludes
  let orGroups := rule.logic.orGroups
  let rawUpper := upStr moContextRaw
  let hasAllIncludes := includes.all (fun inc =>
    let target := upStr inc
    hasId moContextTokens target || containsStr rawUpper target ||
      moContextTokens.any (fun token =>
        containsStr token target || containsStr target token))
  if includes.length > 0 && !hasAllIncludes then false
  else
    let hasAnyExcludes := excludes.any (fun exc =>
      let target := upStr exc
      hasId moContextTokens target || containsStr rawUpper target)
    if excludes.length > 0 && hasAnyExcludes then false
    else
      let matchesAllOrGroups := orGroups.all (fun g => g.any (fun orItem =>
        let target := upStr orItem
        hasId moContextTokens target || containsStr rawUpper target ||
          moContextTokens.any (fun token =>
            containsStr token target || containsStr target token)))
      if orGroups.length > 0 && !matchesAllOrGroups then false
      else includes.length > 0 || orGroups.length > 0

/-- Finds the first occurrence of the closing character `cl`, returning the
content before it and the remainder after it.  Supports the regex
`op([^cl]+)cl`: the `[^cl]+` class is greedy but cannot cross `cl`, so a
match at an opener always runs to the first closer. -/
def findCloseAux (cl : Char) : List Char → Option (List Char × List Char)
  | [] => none
  | c :: rest =>
      if c = cl then some ([], rest)
      else (findCloseAux cl rest).map (fun p => (c :: p.1, p.2))

/-- One left-to-right pass of `str.match(/op([^cl]+)cl/g)` combined with the
source's per-match `workingStr.replace(match, repl)`: returns the matched
segment contents and the working string with each matched span replaced by
`repl`.  The fuel argument is instantiated with the list length, which each
step strictly decreases, so the fuel branch is never taken; fuel recursion
keeps the definition structural (kernel-reducible). -/
def extractSegsAux (op cl : Char) (repl : List Char) :
    Nat → List Char → List (List Char) × List Char
  | 0, l => ([], l)
  | _ + 1, [] => ([], [])
  | fuel + 1, c :: rest =>
      if c = op then
        match findCloseAux cl rest with
        | some (content, rest2) =>
            if content.isEmpty then
              let p := extractSegsAux op cl repl fuel rest
              (p.1, c :: p.2)
            else
              let p := extractSegsAux op cl repl fuel rest2
              (content :: p.1, repl ++ p.2)
        | none =>
            let p := extractSegsAux op cl repl fuel rest
            (p.1, c :: p.2)
      else
        let p := extractSegsAux op cl repl fuel rest
        (p.1, c :: p.2)

/-- All `op([^cl]+)cl` segment contents of `l`, plus the working string with
each matched span replaced by `repl`. -/
def extractSegsWith (op cl : Char) (repl : List Char) (l : List Char) :
    List (List Char) × List Char :=
  extractSegsAux op cl repl l.length l

/-- JS `workingStr.replace(pat, repl)` with a plain-string pattern: replaces
the first occurrence only, or nothing when the pattern is absent. -/
def replaceFirst (pat repl : List Char) : List Char → List Char
  | [] => []
  | c :: rest =>
      if pat.isPrefixOf (c :: rest) then repl ++ (c :: rest).drop pat.length
      else c :: replaceFirst pat repl rest

/-- JS `s.split(/\s+OR\s+/i)`: splits at every maximal
whitespace-`OR`-whitespace separator, scanning left to right.  Fuel is
instantiated with the list length (every recursive call shortens the list),
keeping the recursion structural. -/
def orSepSplit : Nat → List Char → List Char → List (List Char)
  | 0, l, cur => [cur.reverse ++ l]
  | _ + 1, [], cur => [cur.reverse]
  | fuel + 1, c :: cs, cur =>
      if isWSChar c then
        match (c :: cs).dropWhile (fun x => isWSChar x) with
        | o :: r :: rest2 =>
            if o.toUpper = 'O' && r.toUpper = 'R' &&
               (match rest2 with | x :: _ => isWSChar x | [] => false) then
              cur.reverse :: orSepSplit fuel (rest2.dropWhile (fun x => isWSChar x)) []
            else orSepSplit fuel cs (c :: cur)
        | _ => orSepSplit fuel cs (c :: cur)
      else orSepSplit fuel cs (c :: cur)

/-- JS `s.split(/\s+OR\s+/i).map(t => t.trim())`, as used by both formula
dialect paths of `parseLabFormula`. -/
def splitOrTrim (s : String) : List String :=
  (orSepSplit s.toList.length s.toList []).map (fun piece => trimWS (String.mk piece))

/-- From MOProvision.tsx lines 94-127: the upload-path formula parser
`parseLabFormula` (dialect A: bracketed excludes with literal `OR`
separators, parenthesised includes or OR-groups, whole-remainder include). -/
def parseLabFormula (formula : String) : RuleLogic :=
  let chars := formula.toList
  let exSegs := (extractSegsWith '[' ']' [' '] chars).1
  let excludes := exSegs.flatMap (fun seg =>
    splitOrTrim (upStr (trimWS (String.mk (seg.filter (fun c => !(c = '[' || c = ']')))))))
  let parSegs := (extractSegsWith '(' ')' [' '] chars).1
  let includesOr := parSegs.foldl (fun (acc : List String × List (List String)) content =>
    let cleaned := upStr (trimWS (String.mk (content.filter (fun c => !(c = '(' || c = ')')))))
    if containsStr cleaned " OR " then (acc.1, acc.2 ++ [splitOrTrim cleaned])
    else (acc.1 ++ [cleaned], acc.2)) ([], [])
  if includesOr.1.length = 0 && includesOr.2.length = 0 then
    let w1 := (extractSegsWith '(' ')' [] chars).2
    let w2 := (extractSegsWith '[' ']' [] w1).2
    let remaining := upStr (trimWS (String.mk w2))
    if remaining.length > 2 then
      { includes := [remaining], excludes := excludes, orGroups := includesOr.2,
        raw := formula }
    else
      { includes := [], excludes := excludes, orGroups := includesOr.2, raw := formula }
  else
    { includes := includesOr.1, excludes := excludes, orGroups := includesOr.2,
      raw := formula }

/-- From BOMTable (second document of MOProvision.tsx, lines 535-561 of the
claim numbering): the bulk-import formula parser `parseLogicString`
(dialect B: `/`-separated OR-groups in parentheses, whitespace-separated
excludes in brackets, remaining whitespace-separated tokens as includes). -/
def parseLogicString (str : String) : RuleLogic :=
  let chars := str.toList
  let pr := extractSegsWith '(' ')' [' '] chars
  let orGroups := (pr.1.map (fun content =>
      ((splitChunks (fun c => c = '/') content []).map
        (fun piece => upStr (trimWS (String.mk piece)))).filter
        (fun s => s.length > 0))).filter (fun g => g.length > 0)
  let br := extractSegsWith '[' ']' [' '] chars
  let excludes := br.1.flatMap (fun seg =>
    ((splitChunks (fun c => isWSChar c) seg []).map
      (fun p => upStr (trimWS (String.mk p)))).filter (fun s => s.length > 0))
  let w2 := br.1.foldl (fun w seg => replaceFirst ('[' :: (seg ++ [']'])) [' '] w) pr.2
  let includes := ((splitChunks (fun c => isWSChar c) w2 []).map
      (fun p => upStr (trimWS (String.mk p)))).filter (fun s => s.length > 0)
  { includes := includes, excludes := excludes, orGroups := orGroups, raw := str }

/-- From part_000 (NeuralAcademy) lines 292-317: `parseFormula` inside
`deployLogic` is textually identical to `parseLogicString`. -/
def parseFormula : String → RuleLogic := parseLogicString

/-- Separator class of the solver's tokenizer regex `[\s,._+/()\[\]]`. -/
def solverSep (c : Char) : Bool :=
  isWSChar c || c = ',' || c = '.' || c = '_' || c = '+' || c = '/' ||
    c = '(' || c = ')' || c = '[' || c = ']'

/-- From SelectionScreen.tsx lines 42-43: `tokenize(p)` concatenates part
number, name and both remark fields, uppercases, splits on the separator
class and keeps nonempty tokens.  The JS `Set` only ever serves membership
tests, so the token list stands in for it. -/
def tokenizePart (p : BOMPart) : List String :=
  splitDrop (fun c => solverSep c)
    (upStr (p.Part_Number ++ " " ++ p.Name ++ " " ++ p.Remarks ++ " " ++ p.Std_Remarks))

/-- From SelectionScreen.tsx lines 45-47: seed tokens of all mandatory
(`F_Code = 0`) parts. -/
def baseTokens (parts : List BOMPart) : List String :=
  (parts.filter (fun p => p.F_Code == 0)).flatMap tokenizePart

/-- From SelectionScreen.tsx lines 53-55: the context token set rebuilt at
the start of a pass from the seed plus all user-, MO- and logic-selected
parts. -/
def passContext (parts : List BOMPart) (sel mo acc : List String) : List String :=
  baseTokens parts ++
    (parts.filter (fun p => hasId sel p.id || hasId mo p.id || hasId acc p.id)).flatMap
      tokenizePart

/-- From SelectionScreen.tsx lines 57-75: one solver pass.  The context is
computed once from the pass-entry state `acc`, while the growing triggered
set (the fold state) serves the already-triggered guard, exactly as in the
source where `currentContextTokens` is built before the rule loop but
`currentLogicSelected` is consulted live. -/
def solverPass (parts : List BOMPart) (rules : List ConfigRule) (sel mo : List String)
    (acc : List String) : List String :=
  let ctx := passContext parts sel mo acc
  rules.foldl (fun cur rule =>
    if !rule.isActive || hasId sel rule.targetPartId || hasId mo rule.targetPartId ||
        hasId cur rule.targetPartId then cur
    else
      match parts.find? (fun p => p.id == rule.targetPartId) with
      | none => cur
      | some _ =>
          if !(rule.logic.includes.all (fun kw => hasId ctx (upStr kw))) then cur
          else if rule.logic.excludes.any (fun kw => hasId ctx (upStr kw)) then cur
          else if !(rule.logic.orGroups.all (fun g =>
              g.any (fun kw => hasId ctx (upStr kw)))) then cur
          else cur ++ [rule.targetPartId]) acc

/-- From SelectionScreen.tsx lines 49-76: the `while (changed && iterations
< MAX_ITERATIONS)` loop.  Returns the triggered set together with the number
of passes executed; a pass that adds nothing ends the loop (the source's
`changed` flag is exactly "the pass changed the set", since parts are only
ever added). -/
def solverRun (parts : List BOMPart) (rules : List ConfigRule) (sel mo : List String) :
    Nat → List String → List String × Nat
  | 0, acc => (acc, 0)
  | fuel + 1, acc =>
      let next := solverPass parts rules sel mo acc
      if next = acc then (acc, 1)
      else
        let r := solverRun parts rules sel mo fuel next
        (r.1, r.2 + 1)

/-- From SelectionScreen.tsx lines 36-78: the fixed-point solver
`logicSelectedIds` with its cap `MAX_ITERATIONS = 5`. -/
def logicSelectedIds (parts : List BOMPart) (rules : List ConfigRule)
    (sel mo : List String) : List String :=
  (solverRun parts rules sel mo 5 []).1

/-- From SelectionScreen.tsx line 33: parts with `F_Code` 1, 2 or 9 are the
configurable items. -/
def configParts (parts : List BOMPart) : List BOMPart :=
  parts.filter (fun p => p.F_Code == 1 || p.F_Code == 2 || p.F_Code == 9)

/-- JS `p.Ref_des || 'General'`: the empty designator is falsy. -/
def groupKey (p : BOMPart) : String :=
  if p.Ref_des = "" then "General" else p.Ref_des

/-- From SelectionScreen.tsx lines 84-88: the search filter keeps a part
when the query is empty (falsy) or matches part number, name or designator
case-insensitively. -/
def matchesSearch (q : String) (p : BOMPart) : Bool :=
  q = "" || containsStr (downStr p.Part_Number) (downStr q) ||
    containsStr (downStr p.Name) (downStr q) ||
    containsStr (downStr p.Ref_des) (downStr q)

/-- Configurable parts surviving the search filter, in catalog order. -/
def visibleParts (parts : List BOMPart) (q : String) : List BOMPart :=
  (configParts parts).filter (fun p => matchesSearch q p)

/-- First-occurrence deduplication, giving the distinct keys of the
`groups` record built in SelectionScreen.tsx lines 80-93 (order taken by
insertion; only membership and counting are observed downstream, so the
object's integer-key reordering is irrelevant). -/
def firstDedup (l : List String) : List String :=
  l.foldl (fun acc k => if hasId acc k then acc else acc ++ [k]) []

/-- The distinct group keys of the grouped parts display. -/
def groupKeys (parts : List BOMPart) (q : String) : List String :=
  firstDedup ((visibleParts parts q).map groupKey)

/-- The item list of one group: grouping by key preserves catalog order, so
the entry of `groupedParts` at key `k` is exactly the visible configurable
parts whose key is `k` (the sort in lines 95-99 reorders whole groups only
and never changes any group's item list). -/
def groupItems (parts : List BOMPart) (q : String) (k : String) : List BOMPart :=
  (visibleParts parts q).filter (fun p => groupKey p == k)

/-- JS `Math.round(x)` for the nonnegative values produced here: floor of
`x + 1/2` (round half away from zero coincides with round half up on
nonnegatives). -/
def jsRound (x : ℚ) : Int := ⌊x + 1/2⌋

/-- Does the group contain an `F_Code = 2` part? -/
def groupHasF2 (parts : List BOMPart) (q k : String) : Bool :=
  (groupItems parts q k).any (fun p => p.F_Code == 2)

/-- From SelectionScreen.tsx line 112: the group has a selection from user,
order-match or logic. -/
def groupSatisfied (parts : List BOMPart) (q k : String)
    (sel mo logic : List String) : Bool :=
  (groupItems parts q k).any (fun p => hasId sel p.id || hasId mo p.id || hasId logic p.id)

/-- `totalF2Groups` of the validation memo (SelectionScreen.tsx lines
103-125). -/
def totalF2Groups (parts : List BOMPart) (q : String) : Nat :=
  (groupKeys parts q).countP (fun k => groupHasF2 parts q k)

/-- `missingF2` of the validation memo: F2 groups with no selection from any
source. -/
def missingF2 (parts : List BOMPart) (q : String) (sel mo logic : List String) : Nat :=
  (groupKeys parts q).countP
    (fun k => groupHasF2 parts q k && !groupSatisfied parts q k sel mo logic)

/-- `validation.isValid` of SelectionScreen.tsx. -/
def validationIsValid (parts : List BOMPart) (q : String)
    (sel mo logic : List String) : Bool :=
  missingF2 parts q sel mo logic == 0

/-- `validation.progress` of SelectionScreen.tsx line 122:
`Math.round(((total - missing) / total) * 100)`, or 100 when there are no F2
groups. -/
def validationProgress (parts : List BOMPart) (q : String)
    (sel mo logic : List String) : Int :=
  let t := totalF2Groups parts q
  let m := missingF2 parts q sel mo logic
  if t > 0 then jsRound ((((t : ℚ) - (m : ℚ)) / (t : ℚ)) * 100) else 100

/-- From part_001 lines 94-108: the legacy validation variant counts only
user and order-match selections (no logic-solver source). -/
def missingF2Legacy (parts : List BOMPart) (q : String) (sel mo : List String) : Nat :=
  (groupKeys parts q).countP (fun k => groupHasF2 parts q k &&
    !((groupItems parts q k).any (fun p => hasId sel p.id || hasId mo p.id)))

/-- `validation.progress` of the part_001 variant. -/
def validationProgressLegacy (parts : List BOMPart) (q : String)
    (sel mo : List String) : Int :=
  let t := totalF2Groups parts q
  let m := missingF2Legacy parts q sel mo
  if t > 0 then jsRound ((((t : ℚ) - (m : ℚ)) / (t : ℚ)) * 100) else 100

/-- From SelectionScreen.tsx lines 127-142: `toggleSelection`.  A selected
part is deselected; otherwise an `F_Code = 2` part first evicts its whole
visible group, and the part is added. -/
def toggleSelection (parts : List BOMPart) (q : String) (sel : List String)
    (part : BOMPart) : List String :=
  if hasId sel part.id then sel.filter (fun i => !(i == part.id))
  else
    let next :=
      if part.F_Code == 2 then
        let group := groupItems parts q (groupKey part)
        sel.filter (fun i => !(group.any (fun g => g.id == i)))
      else sel
    addId next part.id

/-- From SelectionScreen.tsx lines 147-154: the Priority 1 (order-match)
branch of `handleApplyAllSuggestions` for one id. -/
def moApplyStep (parts : List BOMPart) (q : String) (next : List String)
    (id : String) : List String :=
  match parts.find? (fun x => x.id == id) with
  | some p =>
      if p.F_Code == 2 then
        let group := groupItems parts q (groupKey p)
        addId (next.filter (fun i => !(group.any (fun g => g.id == i)))) id
      else addId next id
  | none => addId next id

/-- From SelectionScreen.tsx lines 156-165: the Priority 2 (logic-solver)
branch of `handleApplyAllSuggestions` for one id. -/
def logicApplyStep (parts : List BOMPart) (q : String) (next : List String)
    (id : String) : List String :=
  match parts.find? (fun x => x.id == id) with
  | some p =>
      if p.F_Code == 2 then
        let group := groupItems parts q (groupKey p)
        if group.any (fun i => hasId next i.id) then next else addId next id
      else addId next id
  | none => addId next id

/-- From SelectionScreen.tsx lines 144-167: `handleApplyAllSuggestions`
applies all order-match picks, then all logic picks, to the user
selection. -/
def handleApplyAllSuggestions (parts : List BOMPart) (q : String)
    (sel mo logic : List String) : List String :=
  logic.foldl (fun next id => logicApplyStep parts q next id)
    (mo.foldl (fun next id => moApplyStep parts q next id) sel)

/-- From part_001 lines 110-116: the legacy apply-all simply unions both
suggestion sets into the selection, with no eviction and no group check. -/
def applyAllLegacy (sel mo logic : List String) : List String :=
  logic.foldl (fun next id => addId next id) (mo.foldl (fun next id => addId next id) sel)

/-- Separator class of the scoring path's regex `[\s,./()]`. -/
def scoreSep (c : Char) : Bool :=
  isWSChar c || c = ',' || c = '.' || c = '/' || c = '(' || c = ')'

/-- From MOProvision.tsx line 62: the stop-word set. -/
def STOP_WORDS : List String :=
  ["WITH", "AND", "THE", "FOR", "NON", "NONE", "SELECTED", "UNIT", "OPTIONS",
   "OR", "IS", "OF", "IN", "BY"]

/-- An entry of the part index built in MOProvision.tsx lines 79-92. -/
structure IndexedPart where
  part : BOMPart
  tokens : List String
  pn : String
  ref : String
  deriving DecidableEq, Repr

/-- From MOProvision.tsx lines 79-92: build one indexed part.  The glossary
pass appends an expansion whenever its abbreviation occurs in the growing
technical source (so an expansion appended earlier is visible to later
abbreviation checks, as in the source's mutated `technicalSource`). -/
def indexPart (glossary : List (String × String)) (p : BOMPart) : IndexedPart :=
  let src0 := upStr (p.Name ++ " " ++ p.Remarks ++ " " ++ p.Std_Remarks ++ " " ++ p.Ref_des)
  let src := glossary.foldl (fun s ab =>
    if containsStr s ab.1 then s ++ " " ++ ab.2 else s) src0
  { part := p,
    tokens := (splitDrop (fun c => scoreSep c) src).filter
      (fun s => s.length > 2 && !(STOP_WORDS.contains s)),
    pn := normalize p.Part_Number,
    ref := upStr p.Ref_des }

/-- The full part index. -/
def partIndex (parts : List BOMPart) (glossary : List (String × String)) :
    List IndexedPart :=
  parts.map (fun p => indexPart glossary p)

/-- From MOProvision.tsx lines 274-281: fold all extracted options into the
shared MO context (token set and concatenated raw text). -/
def buildMoContext (options : List MOOption) : List String × String :=
  options.foldl (fun (acc : List String × String) opt =>
    let entry := upStr (opt.category ++ " " ++ opt.selection)
    (acc.1 ++ [entry] ++
      ((splitChunks (fun c => scoreSep c) entry.toList []).map String.mk).filter
        (fun t => t.length > 2),
     acc.2 ++ " | " ++ entry)) ([], "")

/-- From MOProvision.tsx lines 319-323: the learned-history signal, true
when a knowledge entry matches the option's category and selection and the
part's normalized identifier, all after normalization. -/
def isLearnedEntry (history : List KnowledgeEntry) (opt : MOOption) (pn : String) : Bool :=
  history.any (fun h =>
    normalize h.category == normalize opt.category &&
    normalize h.selection == normalize opt.selection &&
    normalize h.partNumber == pn)

/-- From MOProvision.tsx lines 310-331: the composite per-part score.  A
firing lab rule short-circuits to 1.8; otherwise the maximum of the
identifier-substring signal (1.2), the learned signal (1.1) and the token
overlap ratio. -/
def scorePart (labRules : List ConfigRule) (history : List KnowledgeEntry)
    (moTokens : List String) (moRaw : String) (opt : MOOption)
    (ip : IndexedPart) : ℚ :=
  let queryRaw := upStr (opt.category ++ " " ++ opt.selection)
  let ruleFired :=
    match labRules.find? (fun r => r.targetPartId == ip.part.id) with
    | some rule => evaluateLogic rule moTokens moRaw
    | none => false
  if ruleFired then 18/10
  else
    let s1 : ℚ := if containsStr queryRaw ip.pn then 12/10 else 0
    let s2 : ℚ := if isLearnedEntry history opt ip.pn then max s1 (11/10) else s1
    let queryTokens := splitDrop (fun c => scoreSep c) queryRaw |>.filter
      (fun s => s.length > 2)
    let hits := (queryTokens.filter (fun t => ip.tokens.contains t)).length
    let semanticScore : ℚ :=
      if queryTokens.length > 0 then (hits : ℚ) / (queryTokens.length : ℚ) else 0
    max s2 semanticScore

/-- From MOProvision.tsx lines 306-334: the winner fold.  Strict comparison
`score > topScore` keeps the first maximiser; the initial state is score 0
with no match. -/
def pickBest (l : List IndexedPart) (score : IndexedPart → ℚ) :
    ℚ × Option IndexedPart :=
  l.foldl (fun acc ip => if acc.1 < score ip then (score ip, some ip) else acc)
    ((0 : ℚ), none)

/-- The discrete confidence level of a match outcome. -/
inductive ConfidenceLevel where
  | AUTO_VERIFIED | REVIEW_NEEDED | UNCERTAIN
  deriving DecidableEq, Repr

/-- The provenance tag of a match outcome. -/
inductive MatchSource where
  | Learned | Hybrid | AI | Partial | Logic | NoneSrc
  deriving DecidableEq, Repr

/-- From MOProvision.tsx lines 336-346: map the winning score to a level and
provenance.  The Learned test compares the raw `partNumber` of a history
entry against the winner's normalized identifier (`h.partNumber ===
bestMatch?.pn`), with no category or selection check. -/
def classify (topScore : ℚ) (bestMatch : Option IndexedPart)
    (history : List KnowledgeEntry) : ConfidenceLevel × MatchSource :=
  if (15 : ℚ)/10 ≤ topScore then (ConfidenceLevel.AUTO_VERIFIED, MatchSource.Logic)
  else if (9 : ℚ)/10 ≤ topScore then
    (ConfidenceLevel.AUTO_VERIFIED,
      if history.any (fun h =>
          match bestMatch with
          | some b => h.partNumber == b.pn
          | none => false) then MatchSource.Learned else MatchSource.AI)
  else if (5 : ℚ)/10 ≤ topScore then (ConfidenceLevel.REVIEW_NEEDED, MatchSource.Hybrid)
  else (ConfidenceLevel.UNCERTAIN, MatchSource.NoneSrc)

/-- Claim-side predicate (spec section 4.7): no two distinct `F_Code = 2`
parts of one `Ref_des` group are simultaneously selected. -/
def noTwoF2 (parts : List BOMPart) (sel : List String) : Bool :=
  parts.all (fun p => parts.all (fun r =>
    !(p.F_Code == 2 && r.F_Code == 2 && groupKey p == groupKey r &&
      hasId sel p.id && hasId sel r.id) || p.id == r.id))

/-- Claim-side predicate: every group containing an `F_Code = 2` part has
at least one member selected by the user, the order-match engine, or the
logic solver. -/
def allF2Satisfied (parts : List BOMPart) (q : String)
    (sel mo logic : List String) : Bool :=
  (groupKeys parts q).all (fun k =>
    !(groupHasF2 parts q k) || groupSatisfied parts q k sel mo logic)

/-! ### Concrete fixtures used by witnesses and counterexamples -/

/-- Witness fixture: first of two exclusive parts sharing group `G`. -/
def wPartA : BOMPart := ⟨"w1", "P1", "A", "", "", 2, "G", 0, 1⟩

/-- Witness fixture: second of two exclusive parts sharing group `G`. -/
def wPartB : BOMPart := ⟨"w2", "P2", "B", "", "", 2, "G", 0, 1⟩

/-- Witness fixture: a non-exclusive part in group `H`. -/
def wPartC : BOMPart := ⟨"w3", "P3", "C", "", "", 1, "H", 0, 1⟩

/-- Fixture: a mandatory part whose name supplies the token `SEAT`. -/
def seatPart : BOMPart := ⟨"p0", "P0", "SEAT", "", "", 0, "", 0, 1⟩

/-- Fixture: an exclusive part in group `G`, target of `seatRule`. -/
def cushPart : BOMPart := ⟨"p1", "PX1", "CUSHION", "", "", 2, "G", 0, 1⟩

/-- Fixture: an active rule triggering `cushPart` on the token `SEAT`. -/
def seatRule : ConfigRule := ⟨"r1", "p1", ⟨["SEAT"], [], [], ""⟩, true⟩

/-- Fixture: a part whose identifier `X1` appears in `wScoreOpt`'s text. -/
def wScorePart : BOMPart := ⟨"s1", "X1", "AWIDGET", "", "", 1, "", 0, 1⟩

/-- Fixture: a part whose identifier normalizes to the empty string. -/
def wEmptyPart : BOMPart := ⟨"e1", "", "BWIDGET", "", "", 1, "", 0, 1⟩

/-- Fixture: an extracted option whose raw text contains `X1`. -/
def wScoreOpt : MOOption := ⟨"CAT", "X1 THING", "1"⟩

/-- Fixture: an extracted option with no identifier text. -/
def wPlainOpt : MOOption := ⟨"CAT", "THING", "1"⟩

/-- Fixture: a part stored with leading-zero identifier `0A1`. -/
def cexPart : BOMPart := ⟨"pa", "0A1", "WIDGET", "", "", 1, "", 0, 1⟩

/-- Fixture: the option matched by `cexHist`. -/
def cexOpt : MOOption := ⟨"CAB", "A1 SEAT", "1"⟩

/-- Fixture: a knowledge entry that triple-matches `cexOpt` and `cexPart`
after normalization, but whose raw `partNumber` differs from the
normalized identifier. -/
def cexHist : KnowledgeEntry := ⟨"cab", "A1 SEAT", "a1"⟩

/-! ### Helper lemmas about the modelled JS sets -/

lemma hasId_iff (l : List String) (x : String) : hasId l x = true ↔ x ∈ l := by
  simp [hasId, List.any_eq_true, beq_iff_eq]

lemma hasId_addId (l : List String) (x y : String) :
    hasId (addId l x) y = true ↔ y ∈ l ∨ y = x := by
  unfold addId
  by_cases h : hasId l x = true
  · rw [if_pos h, hasId_iff]
    constructor
    · exact Or.inl
    · rintro (hy | rfl)
      · exact hy
      · exact (hasId_iff l y).mp h
  · rw [if_neg h, hasId_iff]
    simp [List.mem_append]

lemma hasId_filter_iff (l : List String) (p : String → Bool) (y : String) :
    hasId (l.filter p) y = true ↔ y ∈ l ∧ p y = true := by
  rw [hasId_iff, List.mem_filter]

lemma hasId_foldl_addId (l : List String) :
    ∀ (sel : List String) (i : String), hasId sel i = true →
      hasId (l.foldl (fun next id => addId next id) sel) i = true := by
  induction l with
  | nil => intro sel i h; simpa using h
  | cons x xs ih =>
      intro sel i h
      refine ih (addId sel x) i ?_
      rw [hasId_addId]
      exact Or.inl ((hasId_iff sel i).mp h)

/-! ### Claim C1 -/

/-- Claim C1 (amended): a logic condition whose `includes` and `orGroups`
are both empty never evaluates true in the scoring-path evaluator
`evaluateLogic`, for every context and regardless of excludes; the
fixed-point solver's inline evaluation, however, lacks this guard, and a
pass fires such a rule (second conjunct shows a concrete firing). -/
theorem emptyPositive_never_fires_in_evaluator
    (i t f : String) (ex : List String) (a : Bool)
    (tokens : List String) (raw : String) :
    evaluateLogic ⟨i, t, ⟨[], ex, [], f⟩, a⟩ tokens raw = false ∧
    solverPass [⟨"pE", "PX", "WIDGET", "", "", 1, "", 0, 1⟩]
      [⟨"rE", "pE", ⟨[], [], [], ""⟩, true⟩] [] [] [] = ["pE"] := by
  constructor
  · simp [evaluateLogic]
  · decide

/-- Claim C1 counterexample: a rule whose condition has empty `includes`
and empty `orGroups` is fired by the fixed-point solver — its target ends
up in `logicSelectedIds` — contradicting "such a rule never fires ... in
the fixed-point solver's inline rule evaluation". -/
theorem emptyPositive_fires_in_solver_cex :
    (⟨"r1", "p1", ⟨[], [], [], ""⟩, true⟩ : ConfigRule).logic.includes = [] ∧
    (⟨"r1", "p1", ⟨[], [], [], ""⟩, true⟩ : ConfigRule).logic.orGroups = [] ∧
    logicSelectedIds [⟨"p1", "PX", "WIDGET", "", "", 1, "", 0, 1⟩]
      [⟨"r1", "p1", ⟨[], [], [], ""⟩, true⟩] [] [] = ["p1"] := by
  refine ⟨rfl, rfl, ?_⟩
  decide

/-! ### Claim C6 -/

/-- Claim C6: parsing `(CAB/CAN) MT22 [TT]` with the dialect-B parser (both
its copies) yields exactly `orGroups = [[CAB, CAN]]`, `includes = [MT22]`
and `excludes = [TT]`. -/
theorem parse_example_formula :
    parseLogicString "(CAB/CAN) MT22 [TT]" =
      { includes := ["MT22"], excludes := ["TT"], orGroups := [["CAB", "CAN"]],
        raw := "(CAB/CAN) MT22 [TT]" } ∧
    parseFormula "(CAB/CAN) MT22 [TT]" =
      { includes := ["MT22"], excludes := ["TT"], orGroups := [["CAB", "CAN"]],
        raw := "(CAB/CAN) MT22 [TT]" } := by
  constructor <;> decide

/-! ### Claim C7 -/

/-- Claim C7 (amended): both formula parsers are total Lean functions
(nothing is ever raised), and the empty formula yields all-empty condition
lists in both dialects; but a string consisting of an unmatched bracket is
not recognised as an exclude — its text falls through to the plain-text
include path of each dialect, producing a nonempty `includes` list. -/
theorem malformed_formula_behaviour :
    parseLabFormula "" = { includes := [], excludes := [], orGroups := [], raw := "" } ∧
    parseLogicString "" = { includes := [], excludes := [], orGroups := [], raw := "" } ∧
    parseLabFormula "[ABC" =
      { includes := ["[ABC"], excludes := [], orGroups := [], raw := "[ABC" } ∧
    parseLogicString "[ABC" =
      { includes := ["[ABC"], excludes := [], orGroups := [], raw := "[ABC" } := by
  refine ⟨?_, ?_, ?_, ?_⟩ <;> decide

/-- Claim C7 counterexample: on the unmatched-bracket input `[ABC` neither
dialect returns an empty `includes` list, contradicting "the formula parser
(in both dialects) returns a condition whose includes, excludes, and
orGroups lists are all empty". -/
theorem malformed_formula_cex :
    (parseLabFormula "[ABC").includes ≠ [] ∧ (parseLogicString "[ABC").includes ≠ [] := by
  constructor <;> decide

/-! ### Claim C8 -/

/-- Claim C8: with mandatory part `p0` named `SEAT` and active rule `r1`
(includes `[SEAT]`) targeting `p1`, one solver pass triggers `p1` and the
solver returns `{p1}`; adding rule `r2` targeting `p2` whose include is a
token of `p1`'s name, the first pass still yields only `p1`, the second
pass (context now containing `p1`'s tokens) adds `p2`, and the run takes
two productive passes (three loop iterations, the last detecting
stabilisation). -/
theorem solver_two_pass_scenario :
    solverPass [⟨"p0", "P0", "SEAT", "", "", 0, "", 0, 1⟩,
        ⟨"p1", "PX1", "CUSHION", "", "", 1, "", 0, 1⟩]
      [⟨"r1", "p1", ⟨["SEAT"], [], [], ""⟩, true⟩] [] [] [] = ["p1"] ∧
    logicSelectedIds [⟨"p0", "P0", "SEAT", "", "", 0, "", 0, 1⟩,
        ⟨"p1", "PX1", "CUSHION", "", "", 1, "", 0, 1⟩]
      [⟨"r1", "p1", ⟨["SEAT"], [], [], ""⟩, true⟩] [] [] = ["p1"] ∧
    solverPass [⟨"p0", "P0", "SEAT", "", "", 0, "", 0, 1⟩,
        ⟨"p1", "PX1", "CUSHION", "", "", 1, "", 0, 1⟩,
        ⟨"p2", "PX2", "FOO", "", "", 1, "", 0, 1⟩]
      [⟨"r1", "p1", ⟨["SEAT"], [], [], ""⟩, true⟩,
       ⟨"r2", "p2", ⟨["CUSHION"], [], [], ""⟩, true⟩] [] [] [] = ["p1"] ∧
    solverPass [⟨"p0", "P0", "SEAT", "", "", 0, "", 0, 1⟩,
        ⟨"p1", "PX1", "CUSHION", "", "", 1, "", 0, 1⟩,
        ⟨"p2", "PX2", "FOO", "", "", 1, "", 0, 1⟩]
      [⟨"r1", "p1", ⟨["SEAT"], [], [], ""⟩, true⟩,
       ⟨"r2", "p2", ⟨["CUSHION"], [], [], ""⟩, true⟩] [] [] ["p1"] = ["p1", "p2"] ∧
    logicSelectedIds [⟨"p0", "P0", "SEAT", "", "", 0, "", 0, 1⟩,
        ⟨"p1", "PX1", "CUSHION", "", "", 1, "", 0, 1⟩,
        ⟨"p2", "PX2", "FOO", "", "", 1, "", 0, 1⟩]
      [⟨"r1", "p1", ⟨["SEAT"], [], [], ""⟩, true⟩,
       ⟨"r2", "p2", ⟨["CUSHION"], [], [], ""⟩, true⟩] [] [] = ["p1", "p2"] ∧
    (solverRun [⟨"p0", "P0", "SEAT", "", "", 0, "", 0, 1⟩,
        ⟨"p1", "PX1", "CUSHION", "", "", 1, "", 0, 1⟩,
        ⟨"p2", "PX2", "FOO", "", "", 1, "", 0, 1⟩]
      [⟨"r1", "p1", ⟨["SEAT"], [], [], ""⟩, true⟩,
       ⟨"r2", "p2", ⟨["CUSHION"], [], [], ""⟩, true⟩] [] [] 5 []).2 = 3 := by
  refine ⟨?_, ?_, ?_, ?_, ?_, ?_⟩ <;> decide

/-! ### Claim C9 -/

lemma solverRun_count_le (parts : List BOMPart) (rules : List ConfigRule)
    (sel mo : List String) :
    ∀ (fuel : Nat) (acc : List String),
      (solverRun parts rules sel mo fuel acc).2 ≤ fuel := by
  intro fuel
  induction fuel with
  | zero => intro acc; simp [solverRun]
  | succ n ih =>
      intro acc
      unfold solverRun
      by_cases h : solverPass parts rules sel mo acc = acc
      · rw [if_pos h]; omega
      · rw [if_neg h]
        have := ih (solverPass parts rules sel mo acc)
        simpa using Nat.add_le_add_right this 1

lemma solverRun_fix_or_cap (parts : List BOMPart) (rules : List ConfigRule)
    (sel mo : List String) :
    ∀ (fuel : Nat) (acc : List String), 0 < fuel →
      solverPass parts rules sel mo (solverRun parts rules sel mo fuel acc).1 =
        (solverRun parts rules sel mo fuel acc).1 ∨
      (solverRun parts rules sel mo fuel acc).2 = fuel := by
  intro fuel
  induction fuel with
  | zero => intro acc h; omega
  | succ n ih =>
      intro acc _
      unfold solverRun
      by_cases h : solverPass parts rules sel mo acc = acc
      · rw [if_pos h]; exact Or.inl h
      · rw [if_neg h]
        rcases Nat.eq_zero_or_pos n with hn | hn
        · subst hn
          simp [solverRun]
        · rcases ih (solverPass parts rules sel mo acc) hn with h1 | h2
          · exact Or.inl h1
          · exact Or.inr (by simp [h2])

/-- Claim C9: for every catalog and rule set (cyclic dependencies included)
the solver executes at most 5 passes; a pass that adds nothing stops the
loop immediately with one final iteration; the returned set is whatever the
loop converged on, and it is a genuine fixed point of `solverPass` unless
the 5-pass cap was exhausted.  The solver is a total Lean function, so no
exception is possible. -/
theorem solver_bounded_and_stops
    (parts : List BOMPart) (rules : List ConfigRule) (sel mo : List String) :
    (solverRun parts rules sel mo 5 []).2 ≤ 5 ∧
    (∀ (n : Nat) (acc : List String), solverPass parts rules sel mo acc = acc →
      solverRun parts rules sel mo (n + 1) acc = (acc, 1)) ∧
    logicSelectedIds parts rules sel mo = (solverRun parts rules sel mo 5 []).1 ∧
    (solverPass parts rules sel mo (logicSelectedIds parts rules sel mo) =
        logicSelectedIds parts rules sel mo ∨
      (solverRun parts rules sel mo 5 []).2 = 5) := by
  refine ⟨solverRun_count_le parts rules sel mo 5 [], ?_, rfl, ?_⟩
  · intro n acc h
    unfold solverRun
    rw [if_pos h]
  · exact solverRun_fix_or_cap parts rules sel mo 5 [] (by omega)

/-- Claim C9 witness: the bound, the early stop (on the empty
configuration, whose first pass adds nothing) and the convergence disjunct,
all at a concrete input. -/
theorem solver_bounded_and_stops_witness :
    (solverRun [] [] [] [] 5 []).2 ≤ 5 ∧
    solverRun ([] : List BOMPart) [] [] [] 1 [] = ([], 1) ∧
    (solverPass [] [] [] [] (logicSelectedIds [] [] [] []) =
        logicSelectedIds [] [] [] [] ∨ (solverRun [] [] [] [] 5 []).2 = 5) := by
  obtain ⟨h1, h2, _, h4⟩ := solver_bounded_and_stops [] [] [] []
  exact ⟨h1, h2 0 [] (by decide), h4⟩

/-! ### Claim C5 -/

/-- Claim C5 (amended): in SelectionScreen.tsx's apply-all (empty search
filter), a Priority 1 pick whose part is exclusive (`F_Code = 2`) first
evicts every other visible member of its group and is then inserted; a
Priority 2 pick for an exclusive part is applied only when its group has no
existing pick; a Priority 2 pick for a non-exclusive part is added
unconditionally; and the part_001 variant evicts nothing — every previously
selected id survives its apply-all. -/
theorem applyAll_priority_discipline :
    (∀ (parts : List BOMPart) (next : List String) (id : String) (p : BOMPart),
      parts.find? (fun x => x.id == id) = some p → p.F_Code = 2 →
      (∀ g ∈ groupItems parts "" (groupKey p), g.id ≠ id →
        hasId (moApplyStep parts "" next id) g.id = false) ∧
      hasId (moApplyStep parts "" next id) id = true) ∧
    (∀ (parts : List BOMPart) (next : List String) (id : String) (p : BOMPart),
      parts.find? (fun x => x.id == id) = some p → p.F_Code = 2 →
      (groupItems parts "" (groupKey p)).any (fun i => hasId next i.id) = true →
      logicApplyStep parts "" next id = next) ∧
    (∀ (parts : List BOMPart) (next : List String) (id : String) (p : BOMPart),
      parts.find? (fun x => x.id == id) = some p → p.F_Code ≠ 2 →
      logicApplyStep parts "" next id = addId next id) ∧
    (∀ (sel mo logic : List String) (i : String), hasId sel i = true →
      hasId (applyAllLegacy sel mo logic) i = true) := by
  refine ⟨?_, ?_, ?_, ?_⟩
  · intro parts next id p hfind hf2
    unfold moApplyStep
    rw [hfind]
    simp only [hf2]
    rw [if_pos (by simp)]
    constructor
    · intro g hg hne
      rw [Bool.eq_false_iff]
      intro hmem
      rcases (hasId_addId _ _ _).mp hmem with hin | heq
      · rcases (List.mem_filter).mp hin with ⟨_, hp⟩
        have htrue : ((groupItems parts "" (groupKey p)).any fun g2 => g2.id == g.id)
            = true := List.any_eq_true.mpr ⟨g, hg, by simp⟩
        rw [htrue] at hp
        exact absurd hp (by decide)
      · exact hne heq
    · exact (hasId_addId _ _ _).mpr (Or.inr rfl)
  · intro parts next id p hfind hf2 hany
    unfold logicApplyStep
    rw [hfind]
    simp only [hf2]
    rw [if_pos (by simp), if_pos hany]
  · intro parts next id p hfind hf2
    unfold logicApplyStep
    rw [hfind]
    have hfc : (p.F_Code == 2) = false := by simpa using hf2
    simp [hfc]
  · intro sel mo logic i h
    exact hasId_foldl_addId logic _ i (hasId_foldl_addId mo sel i h)

/-- Claim C5 witness: the three step facts and the legacy fact at concrete
inputs, each hypothesis discharged by computation. -/
theorem applyAll_priority_discipline_witness :
    (hasId (moApplyStep [wPartA, wPartB] "" ["w2"] "w1") "w2" = false ∧
     hasId (moApplyStep [wPartA, wPartB] "" ["w2"] "w1") "w1" = true) ∧
    logicApplyStep [wPartA, wPartB] "" ["w2"] "w1" = ["w2"] ∧
    logicApplyStep [wPartC] "" ["w4"] "w3" = addId ["w4"] "w3" ∧
    hasId (applyAllLegacy ["w5"] ["w6"] ["w7"]) "w5" = true := by
  obtain ⟨h1, h2, h3, h4⟩ := applyAll_priority_discipline
  refine ⟨⟨?_, ?_⟩, ?_, ?_, ?_⟩
  · exact (h1 [wPartA, wPartB] ["w2"] "w1" wPartA (by decide) (by decide)).1
      wPartB (by decide) (by decide)
  · exact (h1 [wPartA, wPartB] ["w2"] "w1" wPartA (by decide) (by decide)).2
  · exact h2 [wPartA, wPartB] ["w2"] "w1" wPartA (by decide) (by decide) (by decide)
  · exact h3 [wPartC] ["w4"] "w3" wPartC (by decide) (by decide)
  · exact h4 ["w5"] ["w6"] ["w7"] "w5" (by decide)

/-- Claim C5 counterexample: in SelectionScreen.tsx's own apply-all, a
Priority 2 (logic) pick for a non-exclusive (`F_Code = 1`) part is added
even though its group already has an existing pick, contradicting "every
Priority 2 pick is added only when its group has no existing pick". -/
theorem applyAll_p2_added_despite_pick_cex :
    hasId ["cq"] "cq" = true ∧
    (groupItems [⟨"cq", "PQ", "Q", "", "", 1, "G", 0, 1⟩,
        ⟨"cp", "PP", "P", "", "", 1, "G", 0, 1⟩] "" "G").any
      (fun i => hasId ["cq"] i.id) = true ∧
    handleApplyAllSuggestions [⟨"cq", "PQ", "Q", "", "", 1, "G", 0, 1⟩,
        ⟨"cp", "PP", "P", "", "", 1, "G", 0, 1⟩] "" ["cq"] [] ["cp"] = ["cq", "cp"] := by
  refine ⟨?_, ?_, ?_⟩ <;> decide

/-! ### Claim C2 -/

lemma bool_imp_of_nor (a b : Bool) : ((!a) || b) = true ↔ (a = true → b = true) := by
  cases a <;> cases b <;> simp

lemma noTwoF2_iff (parts : List BOMPart) (sel : List String) :
    noTwoF2 parts sel = true ↔
      ∀ p ∈ parts, ∀ r ∈ parts, p.F_Code = 2 → r.F_Code = 2 →
        groupKey p = groupKey r → hasId sel p.id = true → hasId sel r.id = true →
        p.id = r.id := by
  simp only [noTwoF2, List.all_eq_true, bool_imp_of_nor, Bool.and_eq_true,
    beq_iff_eq, and_imp]

lemma matchesSearch_empty (p : BOMPart) : matchesSearch "" p = true := by
  simp [matchesSearch]

lemma mem_groupItems_of_f2 (parts : List BOMPart) (r : BOMPart) (k : String)
    (hr : r ∈ parts) (hf : r.F_Code = 2) (hk : groupKey r = k) :
    r ∈ groupItems parts "" k := by
  unfold groupItems visibleParts configParts
  exact List.mem_filter.mpr ⟨List.mem_filter.mpr ⟨List.mem_filter.mpr
    ⟨hr, by simp [hf]⟩, matchesSearch_empty r⟩, by simp [hk]⟩

/-- Claim C2 (amended): with an empty search filter, toggling on an
`F_Code = 2` part evicts every other visible member of its `Ref_des` group
before insertion, and, for a catalog with unique part ids, every toggle
(on or off, exclusive or not) preserves the invariant that no two distinct
`F_Code = 2` parts of one group are simultaneously selected — it does not,
however, repair a selection that already violates the invariant. -/
theorem toggle_preserves_exclusivity
    (parts : List BOMPart) (sel : List String) (part : BOMPart)
    (hnd : (parts.map (fun p => p.id)).Nodup) (hmem : part ∈ parts)
    (hinv : noTwoF2 parts sel = true) :
    noTwoF2 parts (toggleSelection parts "" sel part) = true ∧
    (hasId sel part.id = false → part.F_Code = 2 →
      ∀ g ∈ groupItems parts "" (groupKey part), g.id ≠ part.id →
        hasId (toggleSelection parts "" sel part) g.id = false) := by
  have hinv' := (noTwoF2_iff parts sel).mp hinv
  by_cases hsel : hasId sel part.id = true
  · -- deselection: the result is a subset of the previous selection
    have hres : toggleSelection parts "" sel part =
        sel.filter (fun i => !(i == part.id)) := by
      unfold toggleSelection
      rw [if_pos hsel]
    constructor
    · rw [hres, noTwoF2_iff]
      intro p hp r hr hf2p hf2r hkey hps hrs
      exact hinv' p hp r hr hf2p hf2r hkey
        ((hasId_iff _ _).mpr ((List.mem_filter.mp ((hasId_iff _ _).mp hps)).1))
        ((hasId_iff _ _).mpr ((List.mem_filter.mp ((hasId_iff _ _).mp hrs)).1))
    · intro hfalse
      rw [hsel] at hfalse
      exact absurd hfalse (by decide)
  · have hsel' : hasId sel part.id = false := by
      cases h : hasId sel part.id
      · rfl
      · exact absurd h hsel
    by_cases hf : part.F_Code = 2
    · -- toggling an exclusive part on: the whole visible group is evicted
      have hres : toggleSelection parts "" sel part =
          addId (sel.filter (fun i =>
            !((groupItems parts "" (groupKey part)).any (fun g => g.id == i))))
            part.id := by
        unfold toggleSelection
        rw [if_neg hsel]
        simp only [hf]
        rw [if_pos (by simp)]
      have hmemres : ∀ y, hasId (toggleSelection parts "" sel part) y = true ↔
          ((y ∈ sel ∧ ∀ g ∈ groupItems parts "" (groupKey part), ¬(g.id = y)) ∨
            y = part.id) := by
        intro y
        rw [hres, hasId_addId]
        constructor
        · rintro (hin | rfl)
          · rcases List.mem_filter.mp hin with ⟨h1, h2⟩
            refine Or.inl ⟨h1, ?_⟩
            intro g hg hge
            have : ((groupItems parts "" (groupKey part)).any fun g2 => g2.id == y)
                = true := List.any_eq_true.mpr ⟨g, hg, by simp [hge]⟩
            rw [this] at h2
            exact absurd h2 (by decide)
          · exact Or.inr rfl
        · rintro (⟨h1, h2⟩ | rfl)
          · refine Or.inl (List.mem_filter.mpr ⟨h1, ?_⟩)
            have : ((groupItems parts "" (groupKey part)).any fun g2 => g2.id == y)
                = false := by
              rw [Bool.eq_false_iff]
              intro hany
              rcases List.any_eq_true.mp hany with ⟨g, hg, hge⟩
              exact h2 g hg (by simpa using hge)
            rw [this]
            decide
          · exact Or.inr rfl
      constructor
      · rw [noTwoF2_iff]
        intro p hp r hr hf2p hf2r hkey hps hrs
        rcases (hmemres p.id).mp hps with ⟨hpsel, hpng⟩ | hpid
        · rcases (hmemres r.id).mp hrs with ⟨hrsel, hrng⟩ | hrid
          · exact hinv' p hp r hr hf2p hf2r hkey ((hasId_iff _ _).mpr hpsel)
              ((hasId_iff _ _).mpr hrsel)
          · -- r is the toggled part, p survived the filter: contradiction,
            -- since p itself belongs to the evicted group
            have hrpart : r = part :=
              List.inj_on_of_nodup_map hnd hr hmem hrid
            have hpg : p ∈ groupItems parts "" (groupKey part) :=
              mem_groupItems_of_f2 parts p (groupKey part) hp hf2p
                (by rw [hkey, hrpart])
            exact absurd rfl (hpng p hpg)
        · rcases (hmemres r.id).mp hrs with ⟨hrsel, hrng⟩ | hrid
          · have hppart : p = part :=
              List.inj_on_of_nodup_map hnd hp hmem hpid
            have hrg : r ∈ groupItems parts "" (groupKey part) :=
              mem_groupItems_of_f2 parts r (groupKey part) hr hf2r
                (by rw [← hkey, hppart])
            exact absurd rfl (hrng r hrg)
          · rw [hpid, hrid]
      · intro _ _ g hg hne
        rw [Bool.eq_false_iff]
        intro hmemg
        rcases (hmemres g.id).mp hmemg with ⟨_, hng⟩ | hid
        · exact hng g hg rfl
        · exact hne hid
    · -- toggling a non-exclusive part on: it is simply added
      have hfb : (part.F_Code == 2) = false := by simpa using hf
      have hres : toggleSelection parts "" sel part = addId sel part.id := by
        unfold toggleSelection
        rw [if_neg hsel]
        simp [hfb]
      constructor
      · rw [hres, noTwoF2_iff]
        intro p hp r hr hf2p hf2r hkey hps hrs
        rcases (hasId_addId _ _ _).mp hps with hpsel | hpid
        · rcases (hasId_addId _ _ _).mp hrs with hrsel | hrid
          · exact hinv' p hp r hr hf2p hf2r hkey ((hasId_iff _ _).mpr hpsel)
              ((hasId_iff _ _).mpr hrsel)
          · have : r = part := List.inj_on_of_nodup_map hnd hr hmem hrid
            exact absurd (this ▸ hf2r) hf
        · have : p = part := List.inj_on_of_nodup_map hnd hp hmem hpid
          exact absurd (this ▸ hf2p) hf
      · intro _ hf2
        exact absurd hf2 hf

/-- Claim C2 witness: toggling the second exclusive part of group `G` on,
with the first one selected, evicts the first and keeps the invariant. -/
theorem toggle_preserves_exclusivity_witness :
    noTwoF2 [wPartA, wPartB, wPartC]
      (toggleSelection [wPartA, wPartB, wPartC] "" ["w1"] wPartB) = true ∧
    hasId (toggleSelection [wPartA, wPartB, wPartC] "" ["w1"] wPartB) "w1" = false := by
  obtain ⟨h1, h2⟩ := toggle_preserves_exclusivity [wPartA, wPartB, wPartC] ["w1"]
    wPartB (by decide) (by decide) (by decide)
  exact ⟨h1, h2 (by decide) (by decide) wPartA (by decide) (by decide)⟩

/-- Claim C2 counterexample: starting from a selection that already holds
both exclusive parts of group `G` (as the auto-select path can produce),
toggling an unrelated part leaves the two still simultaneously selected,
contradicting "after any toggle no two F_Code = 2 parts of one group are
simultaneously selected" quantified over every selection state. -/
theorem toggle_leaves_two_selected_cex :
    wPartA.F_Code = 2 ∧ wPartB.F_Code = 2 ∧ groupKey wPartA = groupKey wPartB ∧
    wPartA.id ≠ wPartB.id ∧
    toggleSelection [wPartA, wPartB, wPartC] "" ["w1", "w2"] wPartC =
      ["w1", "w2", "w3"] ∧
    noTwoF2 [wPartA, wPartB, wPartC] ["w1", "w2", "w3"] = false := by
  refine ⟨?_, ?_, ?_, ?_, ?_, ?_⟩ <;> decide

/-! ### Claim C3 -/

lemma missingF2_eq_zero_iff (parts : List BOMPart) (q : String)
    (sel mo logic : List String) :
    missingF2 parts q sel mo logic = 0 ↔ allF2Satisfied parts q sel mo logic = true := by
  unfold missingF2 allF2Satisfied
  rw [List.countP_eq_zero, List.all_eq_true]
  constructor <;> intro h k hk <;> have hx := h k hk <;> revert hx <;>
    cases groupHasF2 parts q k <;> cases groupSatisfied parts q k sel mo logic <;> simp

lemma missingF2_le_total (parts : List BOMPart) (q : String)
    (sel mo logic : List String) :
    missingF2 parts q sel mo logic ≤ totalF2Groups parts q := by
  apply List.countP_mono_left
  intro a _ h
  simp only [Bool.and_eq_true] at h
  exact h.1

lemma total_zero_all_satisfied (parts : List BOMPart) (q : String)
    (sel mo logic : List String) (h : totalF2Groups parts q = 0) :
    allF2Satisfied parts q sel mo logic = true := by
  unfold totalF2Groups at h
  rw [List.countP_eq_zero] at h
  unfold allF2Satisfied
  rw [List.all_eq_true]
  intro k hk
  have := h k hk
  revert this
  cases groupHasF2 parts q k <;> simp

lemma jsRound_frac_eq_100_iff (t m : ℕ) (ht : 0 < t) (hm : m ≤ t) :
    jsRound ((((t : ℚ) - (m : ℚ)) / (t : ℚ)) * 100) = 100 ↔ 200 * m ≤ t := by
  have htQ : (0 : ℚ) < (t : ℚ) := by exact_mod_cast ht
  have hmQ : (m : ℚ) ≤ (t : ℚ) := by exact_mod_cast hm
  have hm0 : (0 : ℚ) ≤ (m : ℚ) := by positivity
  set x : ℚ := (((t : ℚ) - (m : ℚ)) / (t : ℚ)) * 100 with hxdef
  have hx : x * (t : ℚ) = ((t : ℚ) - (m : ℚ)) * 100 := by
    rw [hxdef]
    field_simp
  unfold jsRound
  rw [Int.floor_eq_iff]
  push_cast
  constructor
  · rintro ⟨h1, _⟩
    have hxt : (199 : ℚ)/2 * (t : ℚ) ≤ x * (t : ℚ) :=
      mul_le_mul_of_nonneg_right (by linarith) (le_of_lt htQ)
    rw [hx] at hxt
    rw [← Nat.cast_le (α := ℚ)]
    push_cast
    linarith
  · intro h
    have hQ : (200 : ℚ) * (m : ℚ) ≤ (t : ℚ) := by exact_mod_cast h
    have hlow : (199 : ℚ)/2 * (t : ℚ) ≤ x * (t : ℚ) := by
      rw [hx]
      nlinarith
    have hhigh : x * (t : ℚ) ≤ 100 * (t : ℚ) := by
      rw [hx]
      nlinarith
    have hxge : (199 : ℚ)/2 ≤ x := le_of_mul_le_mul_right hlow htQ
    have hxle : x ≤ 100 := le_of_mul_le_mul_right hhigh htQ
    constructor
    · linarith
    · linarith

/-- Claim C3 (amended): for the SelectionScreen.tsx validation (empty
search filter), `isValid` holds iff every group containing an `F_Code = 2`
part has a member selected by the user, the order-match engine, or the
logic solver; the reported progress is 100 whenever that holds, and the
converse also holds for catalogs with fewer than 200 such groups (with
more, the rounded percentage can reach 100 while a group is missing).  The
part_001 validation variant counts only user and order-match sources: its
missing count equals the main one computed with an empty logic set. -/
theorem validation_progress_characterisation
    (parts : List BOMPart) (sel mo logic : List String) :
    (validationIsValid parts "" sel mo logic = true ↔
      allF2Satisfied parts "" sel mo logic = true) ∧
    (allF2Satisfied parts "" sel mo logic = true →
      validationProgress parts "" sel mo logic = 100) ∧
    (totalF2Groups parts "" < 200 →
      (validationProgress parts "" sel mo logic = 100 ↔
        allF2Satisfied parts "" sel mo logic = true)) ∧
    missingF2Legacy parts "" sel mo = missingF2 parts "" sel mo [] := by
  have hiff := missingF2_eq_zero_iff parts "" sel mo logic
  have hle := missingF2_le_total parts "" sel mo logic
  have hprog : allF2Satisfied parts "" sel mo logic = true →
      validationProgress parts "" sel mo logic = 100 := by
    intro h
    have hm0 : missingF2 parts "" sel mo logic = 0 := hiff.mpr h
    unfold validationProgress
    rw [hm0]
    by_cases ht : totalF2Groups parts "" > 0
    · rw [if_pos ht]
      exact (jsRound_frac_eq_100_iff _ 0 ht (Nat.zero_le _)).mpr (by omega)
    · rw [if_neg ht]
  refine ⟨?_, hprog, ?_, ?_⟩
  · unfold validationIsValid
    rw [← hiff]
    simp
  · intro hcap
    constructor
    · intro hp
      by_cases ht : totalF2Groups parts "" > 0
      · unfold validationProgress at hp
        rw [if_pos ht] at hp
        have := (jsRound_frac_eq_100_iff _ _ ht hle).mp hp
        have hm0 : missingF2 parts "" sel mo logic = 0 := by omega
        exact hiff.mp hm0
      · exact total_zero_all_satisfied parts "" sel mo logic (by omega)
    · exact hprog
  · unfold missingF2Legacy missingF2
    refine List.countP_congr ?_
    intro k _
    simp [groupSatisfied, hasId]

/-- Claim C3 witness: a one-group catalog whose exclusive part is user
selected reports 100% progress and a valid configuration. -/
theorem validation_progress_characterisation_witness :
    validationProgress [wPartA] "" ["w1"] [] [] = 100 ∧
    validationIsValid [wPartA] "" ["w1"] [] [] = true := by
  obtain ⟨h1, h2, _, _⟩ := validation_progress_characterisation [wPartA] ["w1"] [] []
  exact ⟨h2 (by decide), h1.mpr (by decide)⟩

/-- Claim C3 counterexample: in the part_001 validation variant (one of the
claim's sources), a catalog whose only exclusive group is satisfied solely
by the logic solver reports progress 0, not 100, contradicting the claimed
equivalence with "selected by the user, by the order-match engine, or by
the logic solver". -/
theorem validation_legacy_ignores_logic_cex :
    allF2Satisfied [seatPart, cushPart] "" [] []
      (logicSelectedIds [seatPart, cushPart] [seatRule] [] []) = true ∧
    validationProgressLegacy [seatPart, cushPart] "" [] [] ≠ 100 := by
  constructor
  · decide
  · have ht : totalF2Groups [seatPart, cushPart] "" = 1 := by decide
    have hm : missingF2Legacy [seatPart, cushPart] "" [] [] = 1 := by decide
    rw [validationProgressLegacy, ht, hm]
    norm_num [jsRound, Int.floor_eq_iff]

/-! ### Scoring helper lemmas (claims C4 and C10) -/

lemma hasSubAux_nil (l : List Char) : hasSubAux [] l = true := by
  cases l <;> simp [hasSubAux, List.isPrefixOf]

lemma containsStr_empty (s : String) : containsStr s "" = true := by
  unfold containsStr
  exact hasSubAux_nil s.toList

lemma filter_ratio_le_one (l : List String) (p : String → Bool) :
    (if l.length > 0 then (((l.filter p).length : ℚ) / (l.length : ℚ)) else 0) ≤ 1 := by
  by_cases h : l.length > 0
  · rw [if_pos h, div_le_one (by exact_mod_cast h)]
    exact_mod_cast List.length_filter_le p l
  · rw [if_neg h]
    norm_num

lemma twelve_le_learned_branch (history : List KnowledgeEntry) (opt : MOOption)
    (pn : String) (sem : ℚ) :
    (12 : ℚ)/10 ≤
      max (if isLearnedEntry history opt pn = true
        then max ((12 : ℚ)/10) (11/10) else (12 : ℚ)/10) sem := by
  refine le_trans ?_ (le_max_left _ _)
  by_cases h : isLearnedEntry history opt pn = true
  · rw [if_pos h]
    exact le_max_left _ _
  · rw [if_neg h]

lemma pickBest_lt (score : IndexedPart → ℚ) (s : ℚ) :
    ∀ (l : List IndexedPart) (acc : ℚ × Option IndexedPart),
      (∀ q ∈ l, score q < s) → acc.1 < s →
      (List.foldl (fun a ip => if a.1 < score ip then (score ip, some ip) else a)
        acc l).1 < s := by
  intro l
  induction l with
  | nil => intro acc _ hacc; exact hacc
  | cons x xs ih =>
      intro acc h hacc
      simp only [List.foldl_cons]
      by_cases hc : acc.1 < score x
      · rw [if_pos hc]
        exact ih (score x, some x) (fun q hq => h q (List.mem_cons_of_mem x hq))
          (h x (List.mem_cons_self x xs))
      · rw [if_neg hc]
        exact ih acc (fun q hq => h q (List.mem_cons_of_mem x hq)) hacc

lemma pickBest_keep (score : IndexedPart → ℚ) :
    ∀ (l : List IndexedPart) (acc : ℚ × Option IndexedPart),
      (∀ q ∈ l, score q ≤ acc.1) →
      List.foldl (fun a ip => if a.1 < score ip then (score ip, some ip) else a)
        acc l = acc := by
  intro l
  induction l with
  | nil => intro acc _; rfl
  | cons x xs ih =>
      intro acc h
      simp only [List.foldl_cons]
      rw [if_neg (not_lt.mpr (h x (List.mem_cons_self x xs)))]
      exact ih acc (fun q hq => h q (List.mem_cons_of_mem x hq))

lemma pickBest_first_max (score : IndexedPart → ℚ) (l1 l2 : List IndexedPart)
    (ip : IndexedPart) (s : ℚ) (hs : score ip = s) (h0 : 0 < s)
    (h1 : ∀ q ∈ l1, score q < s) (h2 : ∀ q ∈ l2, score q ≤ s) :
    pickBest (l1 ++ ip :: l2) score = (s, some ip) := by
  unfold pickBest
  rw [List.foldl_append]
  have ha : (List.foldl (fun a q => if a.1 < score q then (score q, some q) else a)
      ((0 : ℚ), (none : Option IndexedPart)) l1).1 < s :=
    pickBest_lt score s l1 _ h1 (by simpa using h0)
  simp only [List.foldl_cons]
  rw [if_pos (by rw [hs]; exact ha)]
  rw [hs]
  exact pickBest_keep score l2 (s, some ip) (fun q hq => h2 q hq)

lemma scorePart_no_rule_pn_hit (labRules : List ConfigRule)
    (history : List KnowledgeEntry) (mt : List String) (mr : String)
    (opt : MOOption) (ip : IndexedPart)
    (hrule : labRules.find? (fun r => r.targetPartId == ip.part.id) = none)
    (hpn : containsStr (upStr (opt.category ++ " " ++ opt.selection)) ip.pn = true) :
    scorePart labRules history mt mr opt ip = 12/10 := by
  unfold scorePart
  rw [hrule]
  rw [if_neg Bool.false_ne_true]
  simp only [hpn, if_true]
  have hsem := filter_ratio_le_one
    ((splitDrop (fun c => scoreSep c)
      (upStr (opt.category ++ " " ++ opt.selection))).filter (fun s => s.length > 2))
    (fun t => ip.tokens.contains t)
  have h2 : (if isLearnedEntry history opt ip.pn = true
      then max ((12 : ℚ)/10) (11/10) else (12 : ℚ)/10) = 12/10 := by
    by_cases h : isLearnedEntry history opt ip.pn = true
    · rw [if_pos h]
      exact max_eq_left (by norm_num)
    · rw [if_neg h]
  rw [h2]
  exact max_eq_left (le_trans hsem (by norm_num))

lemma scorePart_ge_of_empty_pn (labRules : List ConfigRule)
    (history : List KnowledgeEntry) (mt : List String) (mr : String)
    (opt : MOOption) (ip : IndexedPart) (hpn : ip.pn = "") :
    (12 : ℚ)/10 ≤ scorePart labRules history mt mr opt ip := by
  unfold scorePart
  cases hfind : labRules.find? (fun r => r.targetPartId == ip.part.id) with
  | none =>
      rw [if_neg Bool.false_ne_true]
      simp only [hpn, containsStr_empty, if_true]
      exact twelve_le_learned_branch history opt "" _
  | some rule =>
      dsimp only
      by_cases hev : evaluateLogic rule mt mr = true
      · rw [if_pos hev]
        norm_num
      · have hev' : evaluateLogic rule mt mr = false := by
          cases h2 : evaluateLogic rule mt mr
          · rfl
          · exact absurd h2 hev
        rw [hev']
        rw [if_neg Bool.false_ne_true]
        simp only [hpn, containsStr_empty, if_true]
        exact twelve_le_learned_branch history opt "" _

lemma classify_at_12 (history : List KnowledgeEntry) (b : IndexedPart) :
    classify (12/10) (some b) history =
      (ConfidenceLevel.AUTO_VERIFIED,
       if history.any (fun h => h.partNumber == b.pn) then MatchSource.Learned
       else MatchSource.AI) := by
  unfold classify
  rw [if_neg (by norm_num), if_pos (by norm_num)]

/-! ### Claim C4 -/

/-- Claim C4 (amended): when an option's uppercased raw text contains a
candidate part's normalized identifier, no lab rule targets that part, every
other candidate scores at most 1.2 and every earlier candidate strictly
below 1.2 (ties keep the first maximiser), the winning score is exactly 1.2
and the level is AUTO_VERIFIED; the provenance is Learned exactly when some
history entry's raw `partNumber` is string-equal to the winner's normalized
identifier, and AI otherwise — the triple-matched learned signal is not
consulted at this step. -/
theorem scoring_identifier_substring_outcome (labRules : List ConfigRule)
    (history : List KnowledgeEntry) (mt : List String) (mr : String)
    (opt : MOOption) (l1 l2 : List IndexedPart) (ip : IndexedPart)
    (hrule : labRules.find? (fun r => r.targetPartId == ip.part.id) = none)
    (hpn : containsStr (upStr (opt.category ++ " " ++ opt.selection)) ip.pn = true)
    (hlt : ∀ q ∈ l1, scorePart labRules history mt mr opt q < 12/10)
    (hle : ∀ q ∈ l2, scorePart labRules history mt mr opt q ≤ 12/10) :
    pickBest (l1 ++ ip :: l2) (scorePart labRules history mt mr opt) =
      (12/10, some ip) ∧
    classify (12/10) (some ip) history =
      (ConfidenceLevel.AUTO_VERIFIED,
       if history.any (fun h => h.partNumber == ip.pn) then MatchSource.Learned
       else MatchSource.AI) := by
  constructor
  · exact pickBest_first_max _ l1 l2 ip (12/10)
      (scorePart_no_rule_pn_hit labRules history mt mr opt ip hrule hpn)
      (by norm_num) hlt hle
  · exact classify_at_12 history ip

/-- Claim C4 witness: a one-part catalog whose identifier appears in the
option text, with no rules and no history, wins at exactly 1.2, level
AUTO_VERIFIED, provenance AI. -/
theorem scoring_identifier_substring_outcome_witness :
    pickBest [indexPart [] wScorePart] (scorePart [] [] [] "" wScoreOpt) =
      (12/10, some (indexPart [] wScorePart)) ∧
    classify (12/10) (some (indexPart [] wScorePart)) [] =
      (ConfidenceLevel.AUTO_VERIFIED, MatchSource.AI) := by
  obtain ⟨h1, h2⟩ := scoring_identifier_substring_outcome [] [] [] "" wScoreOpt
    [] [] (indexPart [] wScorePart) (by decide) (by decide)
    (by intro q hq; exact absurd hq (List.not_mem_nil q))
    (by intro q hq; exact absurd hq (List.not_mem_nil q))
  exact ⟨h1, by simpa using h2⟩

/-- Claim C4 counterexample: the history entry triple-matches the option
and the part after normalization (the learned signal accepts it), the
winning score is exactly 1.2 with level AUTO_VERIFIED, yet the provenance
is AI, not Learned — the provenance test compares the raw stored
`partNumber` `a1` against the normalized identifier `A1` — contradicting
"the provenance is Learned if a matching history entry exists". -/
theorem scoring_learned_provenance_cex :
    isLearnedEntry [cexHist] cexOpt (indexPart [] cexPart).pn = true ∧
    pickBest (partIndex [cexPart] [])
      (scorePart [] [cexHist] (buildMoContext [cexOpt]).1 (buildMoContext [cexOpt]).2
        cexOpt) = (12/10, some (indexPart [] cexPart)) ∧
    classify (12/10) (some (indexPart [] cexPart)) [cexHist] =
      (ConfidenceLevel.AUTO_VERIFIED, MatchSource.AI) := by
  refine ⟨by decide, ?_, ?_⟩
  · exact pickBest_first_max _ [] [] (indexPart [] cexPart) (12/10)
      (scorePart_no_rule_pn_hit [] [cexHist] (buildMoContext [cexOpt]).1
        (buildMoContext [cexOpt]).2 cexOpt (indexPart [] cexPart)
        (by decide) (by decide))
      (by norm_num) (by intro q hq; exact absurd hq (List.not_mem_nil q))
      (by intro q hq; exact absurd hq (List.not_mem_nil q))
  · rw [classify_at_12]
    have : ([cexHist].any (fun h => h.partNumber == (indexPart [] cexPart).pn))
        = false := by decide
    rw [this]
    decide

/-! ### Claim C10 -/

/-- Claim C10 (amended): a candidate part whose `Part_Number` normalizes to
the empty string always receives at least the 1.2 identifier-substring
signal (every raw text contains the empty string); and whenever no
candidate scores above 1.2 and every candidate before it stays strictly
below 1.2, that part is the AUTO_VERIFIED winner at exactly 1.2.  Ties at
1.2 keep the earlier candidate, so an earlier part reaching 1.2 wins
instead. -/
theorem empty_pn_auto_verified (labRules : List ConfigRule)
    (history : List KnowledgeEntry) (mt : List String) (mr : String)
    (opt : MOOption) (l1 l2 : List IndexedPart) (ip : IndexedPart)
    (hpn : ip.pn = "")
    (hle : ∀ q ∈ l1 ++ ip :: l2, scorePart labRules history mt mr opt q ≤ 12/10)
    (hlt : ∀ q ∈ l1, scorePart labRules history mt mr opt q < 12/10) :
    (12 : ℚ)/10 ≤ scorePart labRules history mt mr opt ip ∧
    pickBest (l1 ++ ip :: l2) (scorePart labRules history mt mr opt) =
      (12/10, some ip) ∧
    (classify (12/10) (some ip) history).1 = ConfidenceLevel.AUTO_VERIFIED := by
  have hge := scorePart_ge_of_empty_pn labRules history mt mr opt ip hpn
  have hmem : ip ∈ l1 ++ ip :: l2 :=
    List.mem_append_right l1 (List.mem_cons_self ip l2)
  have heq : scorePart labRules history mt mr opt ip = 12/10 :=
    le_antisymm (hle ip hmem) hge
  refine ⟨hge, ?_, ?_⟩
  · exact pickBest_first_max _ l1 l2 ip (12/10) heq (by norm_num) hlt
      (fun q hq => hle q (List.mem_append_right l1 (List.mem_cons_of_mem ip hq)))
  · rw [classify_at_12]

/-- Claim C10 witness: a catalog whose single part has an empty normalized
identifier wins every option at 1.2 with level AUTO_VERIFIED. -/
theorem empty_pn_auto_verified_witness :
    (12 : ℚ)/10 ≤ scorePart [] [] [] "" wPlainOpt (indexPart [] wEmptyPart) ∧
    pickBest [indexPart [] wEmptyPart] (scorePart [] [] [] "" wPlainOpt) =
      (12/10, some (indexPart [] wEmptyPart)) ∧
    (classify (12/10) (some (indexPart [] wEmptyPart)) []).1 =
      ConfidenceLevel.AUTO_VERIFIED := by
  have hval : scorePart [] [] [] "" wPlainOpt (indexPart [] wEmptyPart) = 12/10 :=
    scorePart_no_rule_pn_hit [] [] [] "" wPlainOpt (indexPart [] wEmptyPart)
      (by decide) (by decide)
  obtain ⟨h1, h2, h3⟩ := empty_pn_auto_verified [] [] [] "" wPlainOpt [] []
    (indexPart [] wEmptyPart) (by decide)
    (by intro q hq
        simp only [List.nil_append, List.mem_singleton] at hq
        rw [hq, hval])
    (by intro q hq; exact absurd hq (List.not_mem_nil q))
  exact ⟨h1, h2, h3⟩

/-- Claim C10 counterexample: with an earlier candidate also reaching 1.2
(its identifier occurs in the option text), the empty-identifier part is
not the winner even though no part scores above 1.2 — ties keep the first
maximiser — contradicting "such a part becomes the AUTO_VERIFIED winner for
every option". -/
theorem empty_pn_not_winner_cex :
    (indexPart [] wEmptyPart).pn = "" ∧
    (∀ q ∈ partIndex [wScorePart, wEmptyPart] [],
      scorePart [] [] [] "" wScoreOpt q ≤ 12/10) ∧
    (pickBest (partIndex [wScorePart, wEmptyPart] [])
      (scorePart [] [] [] "" wScoreOpt)).2 = some (indexPart [] wScorePart) ∧
    indexPart [] wScorePart ≠ indexPart [] wEmptyPart := by
  have hA : scorePart [] [] [] "" wScoreOpt (indexPart [] wScorePart) = 12/10 :=
    scorePart_no_rule_pn_hit [] [] [] "" wScoreOpt (indexPart [] wScorePart)
      (by decide) (by decide)
  have hB : scorePart [] [] [] "" wScoreOpt (indexPart [] wEmptyPart) = 12/10 :=
    scorePart_no_rule_pn_hit [] [] [] "" wScoreOpt (indexPart [] wEmptyPart)
      (by decide) (by decide)
  have hidx : partIndex [wScorePart, wEmptyPart] [] =
      [indexPart [] wScorePart, indexPart [] wEmptyPart] := rfl
  refine ⟨by decide, ?_, ?_, by decide⟩
  · intro q hq
    rw [hidx] at hq
    rcases List.mem_cons.mp hq with rfl | hq2
    · rw [hA]
    · rcases List.mem_singleton.mp hq2 with rfl
      rw [hB]
  · rw [hidx]
    have := pickBest_first_max (scorePart [] [] [] "" wScoreOpt) []
      [indexPart [] wEmptyPart] (indexPart [] wScorePart) (12/10) hA (by norm_num)
      (by intro q hq; exact absurd hq (List.not_mem_nil q))
      (by intro q hq
          rcases List.mem_singleton.mp hq with rfl
          rw [hB])
    rw [List.nil_append] at this
    rw [this]

end AutoBOM
